import Mathlib

/-!
Shallow embedding of the dominoes game engine
(src/awsprojkiro/dominoes_game.py) and verification of its specification.

Python mutation is modelled by explicit state passing: every method of
DominoesGame becomes a function GameState -> ... -> (result, GameState).
The uncaught KeyError that Python raises in play_player_tile when the
position string is neither "left" nor "right" is modelled with
Except GameState: .error s is the exception propagating with the (never
mutated before the raise) state s.  Python ints are Nat (all pip values
are non-negative).  The leading underscore of private Python method names
is dropped.  Human-readable message strings are modelled by the Msg
enumeration, one constructor per distinct message template of the source.
-/

namespace Dominoes

/-- Tile: class Tile with attributes left and right (dominoes_game.py:4). -/
structure Tile where
  left : Nat
  right : Nat
deriving DecidableEq, Repr

/-- Serialized form of a tile, Tile.to_dict: a dict with keys left and right. -/
structure TileDict where
  left : Nat
  right : Nat
deriving DecidableEq, Repr

/-- Tile.__eq__ (dominoes_game.py:12-16): symmetric equality of value pairs. -/
def tile_eq (a b : Tile) : Bool :=
  (a.left == b.left && a.right == b.right) ||
  (a.left == b.right && a.right == b.left)

/-- Tile.is_double (dominoes_game.py:18-19). -/
def Tile.is_double (t : Tile) : Bool := t.left == t.right

/-- Tile.has_value (dominoes_game.py:21-22). -/
def Tile.has_value (t : Tile) (value : Nat) : Bool :=
  t.left == value || t.right == value

/-- Tile.get_other_value (dominoes_game.py:24-29). -/
def Tile.get_other_value (t : Tile) (value : Nat) : Option Nat :=
  if t.left == value then some t.right
  else if t.right == value then some t.left
  else none

/-- Tile.to_dict (dominoes_game.py:31-32). -/
def Tile.to_dict (t : Tile) : TileDict := ⟨t.left, t.right⟩

/-- The two sides of the session, values of the Python strings
stored in current_player and winner. -/
inductive Player where
  | player
  | ai
deriving DecidableEq, Repr

/-- The mutable state of a DominoesGame instance (dominoes_game.py:34-44);
the immutable tiles attribute (the freshly built set before shuffling) is
not part of the evolving state and is kept separate. -/
structure GameState where
  player_hand : List Tile
  ai_hand : List Tile
  board : List Tile
  boneyard : List Tile
  current_player : Player
  game_over : Bool
  winner : Option Player
deriving DecidableEq, Repr

/-- DominoesGame._create_domino_set (dominoes_game.py:46-52): all pairs
(i, j) with 0 <= i <= j <= 6, in the double loop order of the source. -/
def create_domino_set : List Tile :=
  (List.range 7).flatMap fun i => (List.range' i (7 - i)).map fun j => Tile.mk i j

/-- Python list membership test by == on Tiles: `tile in hand` uses
Tile.__eq__, which is symmetric. -/
def mem_eq (hand : List Tile) (tile : Tile) : Bool :=
  hand.any fun t => tile_eq t tile

/-- Python list.remove on Tiles: removes the first element that compares
equal (under symmetric Tile.__eq__) to the given tile. -/
def remove_eq (hand : List Tile) (tile : Tile) : List Tile :=
  hand.eraseP fun t => tile_eq t tile

/-- Python board[-1].right: the right field of the last tile of a
non-empty board, written as structural recursion. -/
def last_right (t : Tile) : List Tile → Nat
  | [] => t.right
  | u :: us => last_right u us

/-- DominoesGame.get_board_ends (dominoes_game.py:116-120):
(board[0].left, board[-1].right), (None, None) on an empty board. -/
def get_board_ends (board : List Tile) : Option Nat × Option Nat :=
  match board with
  | [] => (none, none)
  | t :: rest => (some t.left, some (last_right t rest))

/-- Result dictionary of can_play_tile: keys left and right. -/
structure Playable where
  left : Bool
  right : Bool
deriving DecidableEq, Repr

/-- DominoesGame.can_play_tile (dominoes_game.py:122-131). -/
def can_play_tile (board : List Tile) (tile : Tile) : Playable :=
  match board with
  | [] => ⟨true, true⟩
  | t :: rest =>
    let left_end := t.left
    let right_end := last_right t rest
    ⟨tile.has_value left_end, tile.has_value right_end⟩

/-- Python dict subscript playable[position] on a can_play_tile result:
none models the KeyError raised on any key other than left or right. -/
def playable_at (p : Playable) (position : String) : Option Bool :=
  if position == "left" then some p.left
  else if position == "right" then some p.right
  else none

/-- Outcome of DominoesGame.play_tile: the returned bool together with the
final contents of the mutated hand argument and board attribute. -/
structure PlayOut where
  ok : Bool
  hand : List Tile
  board : List Tile
deriving DecidableEq, Repr

/-- DominoesGame.play_tile (dominoes_game.py:133-164).  The Python method
mutates the passed hand list and self.board; here both are threaded. -/
def play_tile (tile : Tile) (position : String) (hand : List Tile)
    (board : List Tile) : PlayOut :=
  if !(mem_eq hand tile) then ⟨false, hand, board⟩
  else
    match board with
    | [] => ⟨true, remove_eq hand tile, [tile]⟩
    | t :: rest =>
      let left_end := t.left
      let right_end := last_right t rest
      if position == "left" && tile.has_value left_end then
        if tile.right == left_end then
          ⟨true, remove_eq hand tile, tile :: board⟩
        else
          ⟨true, remove_eq hand tile, Tile.mk tile.right tile.left :: board⟩
      else if position == "right" && tile.has_value right_end then
        if tile.left == right_end then
          ⟨true, remove_eq hand tile, board ++ [tile]⟩
        else
          ⟨true, remove_eq hand tile, board ++ [Tile.mk tile.right tile.left]⟩
      else ⟨false, hand, board⟩

/-- DominoesGame._tile_value (dominoes_game.py:112-114). -/
def tile_value (t : Tile) : Nat := t.left + t.right

/-- The generator expression of _check_game_over (dominoes_game.py:317-320):
whether any tile of the hand is playable on either end of the board. -/
def any_can_play (board : List Tile) (hand : List Tile) : Bool :=
  hand.any fun t => (can_play_tile board t).left || (can_play_tile board t).right

/-- The pip totals of _check_game_over (dominoes_game.py:325-326). -/
def hand_total (hand : List Tile) : Nat := (hand.map tile_value).sum

/-- DominoesGame._check_game_over (dominoes_game.py:307-327). -/
def check_game_over (s : GameState) : GameState :=
  if s.player_hand.isEmpty then
    { s with game_over := true, winner := some Player.player }
  else if s.ai_hand.isEmpty then
    { s with game_over := true, winner := some Player.ai }
  else if s.boneyard.isEmpty then
    let player_can_play := any_can_play s.board s.player_hand
    let ai_can_play := any_can_play s.board s.ai_hand
    if !player_can_play && !ai_can_play then
      let player_total := hand_total s.player_hand
      let ai_total := hand_total s.ai_hand
      { s with game_over := true,
               winner := some (if player_total < ai_total then Player.player else Player.ai) }
    else s
  else s

/-- Distinct human-readable message templates of the source, one
constructor per template (the concrete strings interpolate counts and
tiles; only their identity matters to the interface). -/
inductive Msg where
  | notYourTurnOrGameOver
  | tileNotInYourHand
  | cannotPlayTileOnSide
  | tilePlayedSuccessfully
  | failedToPlayTile
  | notAiTurnOrGameOver
  | aiPlayed
  | aiDrewThenPlayed
  | aiPassed
  | aiDrewThenPassed
  | youCanNowPlay
  | drewAndCanPlay
  | noTilesLeftToDraw
  | noPlayableTurnPassed
  | drewButPassedToAi
deriving DecidableEq, Repr

/-- Return dictionary of play_player_tile: success flag and message. -/
structure PlayerResult where
  success : Bool
  message : Msg
deriving DecidableEq, Repr

/-- The lookup loop of play_player_tile (dominoes_game.py:172-176): the
first hand tile whose left and right fields both equal the requested
dict values in the given orientation (field-wise, not symmetric). -/
def find_exact (hand : List Tile) (d : TileDict) : Option Tile :=
  hand.find? fun t => t.left == d.left && t.right == d.right

/-- DominoesGame.play_player_tile (dominoes_game.py:166-190).
Except.error s is the uncaught KeyError from playable[position] when
position is neither left nor right; no mutation precedes it. -/
def play_player_tile (s : GameState) (tile_dict : TileDict) (position : String) :
    Except GameState (PlayerResult × GameState) :=
  if s.current_player != Player.player || s.game_over then
    Except.ok (⟨false, Msg.notYourTurnOrGameOver⟩, s)
  else
    match find_exact s.player_hand tile_dict with
    | none => Except.ok (⟨false, Msg.tileNotInYourHand⟩, s)
    | some tile =>
      match playable_at (can_play_tile s.board tile) position with
      | none => Except.error s
      | some b =>
        if !b then Except.ok (⟨false, Msg.cannotPlayTileOnSide⟩, s)
        else
          let out := play_tile tile position s.player_hand s.board
          if out.ok then
            let s1 := { s with player_hand := out.hand, board := out.board,
                               current_player := Player.ai }
            Except.ok (⟨true, Msg.tilePlayedSuccessfully⟩, check_game_over s1)
          else
            Except.ok (⟨false, Msg.failedToPlayTile⟩, s)

/-- Return dictionary of ai_play (dominoes_game.py:192-248); keys absent
from a branch of the source are none. -/
structure AiResult where
  played : Bool
  tile : Option TileDict
  position : Option String
  drew_tile : Option Bool
  drew_count : Option Nat
  message : Msg
deriving DecidableEq, Repr

/-- The playable-move scan of ai_play (dominoes_game.py:202-208): for each
hand tile in order, (tile, left) if playable left then (tile, right) if
playable right. -/
def playable_moves (board : List Tile) (hand : List Tile) : List (Tile × String) :=
  hand.flatMap fun tile =>
    let p := can_play_tile board tile
    (if p.left then [(tile, "left")] else []) ++
    (if p.right then [(tile, "right")] else [])

/-- Python max(moves, key) (dominoes_game.py:212): the first element of
maximal key, none on an empty list (where Python raises). -/
def py_max_move (l : List (Tile × String)) : Option (Tile × String) :=
  match l with
  | [] => none
  | m :: ms =>
    some (ms.foldl (fun acc x => if tile_value x.1 > tile_value acc.1 then x else acc) m)

/-- One draw from the boneyard into the AI hand
(dominoes_game.py:232-235): boneyard.pop() takes the last element. -/
def ai_draw_one (s : GameState) : GameState :=
  match s.boneyard.getLast? with
  | some drawn_tile =>
    { s with boneyard := s.boneyard.dropLast, ai_hand := s.ai_hand ++ [drawn_tile] }
  | none => s

/-- The while-True loop of ai_play (dominoes_game.py:200-248), with an
explicit iteration bound: none means the bound was exhausted before the
loop returned (the termination theorem shows boneyard+1 always suffices).
drawn_tiles is the accumulator list of the source. -/
def ai_play_loop (fuel : Nat) (s : GameState) (drawn_tiles : List Tile) :
    Option (AiResult × GameState) :=
  match fuel with
  | 0 => none
  | fuel + 1 =>
    let moves := playable_moves s.board s.ai_hand
    let attempt : Option (AiResult × GameState) :=
      match py_max_move moves with
      | none => none
      | some (tile, position) =>
        let out := play_tile tile position s.ai_hand s.board
        if out.ok then
          let s1 := { s with ai_hand := out.hand, board := out.board,
                             current_player := Player.player }
          some (⟨true, some tile.to_dict, some position, none,
                 some drawn_tiles.length,
                 if drawn_tiles.isEmpty then Msg.aiPlayed else Msg.aiDrewThenPlayed⟩,
                check_game_over s1)
        else none
    match attempt with
    | some r => some r
    | none =>
      match s.boneyard.getLast? with
      | some drawn_tile =>
        ai_play_loop fuel
          { s with boneyard := s.boneyard.dropLast,
                   ai_hand := s.ai_hand ++ [drawn_tile] }
          (drawn_tiles ++ [drawn_tile])
      | none =>
        some (⟨false, none, none, some (drawn_tiles.length > 0),
               some drawn_tiles.length,
               if drawn_tiles.isEmpty then Msg.aiPassed else Msg.aiDrewThenPassed⟩,
              { s with current_player := Player.player })

/-- DominoesGame.ai_play (dominoes_game.py:192-248).  The loop is entered
with bound boneyard+1, which the termination theorem proves sufficient. -/
def ai_play (s : GameState) : Option (AiResult × GameState) :=
  if s.current_player != Player.ai || s.game_over then
    some (⟨false, none, none, none, none, Msg.notAiTurnOrGameOver⟩, s)
  else
    ai_play_loop (s.boneyard.length + 1) s []

/-- Return dictionary of player_draw_until_playable
(dominoes_game.py:250-301); keys absent from a branch are none. -/
structure DrawResult where
  success : Bool
  drew_count : Option Nat
  can_play : Option Bool
  passed : Option Bool
  message : Msg
deriving DecidableEq, Repr

/-- The while-True loop of player_draw_until_playable
(dominoes_game.py:261-301) with an explicit iteration bound, as for
ai_play_loop. -/
def player_draw_loop (fuel : Nat) (s : GameState) (drawn_tiles : List Tile) :
    Option (DrawResult × GameState) :=
  match fuel with
  | 0 => none
  | fuel + 1 =>
    if any_can_play s.board s.player_hand then
      some (⟨true, some drawn_tiles.length, some true, none,
             if drawn_tiles.isEmpty then Msg.youCanNowPlay else Msg.drewAndCanPlay⟩, s)
    else
      match s.boneyard.getLast? with
      | some drawn_tile =>
        player_draw_loop fuel
          { s with boneyard := s.boneyard.dropLast,
                   player_hand := s.player_hand ++ [drawn_tile] }
          (drawn_tiles ++ [drawn_tile])
      | none =>
        some (⟨true, some drawn_tiles.length, some false, some true,
               if drawn_tiles.isEmpty then Msg.noPlayableTurnPassed else Msg.drewButPassedToAi⟩,
              { s with current_player := Player.ai })

/-- DominoesGame.player_draw_until_playable (dominoes_game.py:250-301). -/
def player_draw_until_playable (s : GameState) : Option (DrawResult × GameState) :=
  if s.current_player != Player.player || s.game_over then
    some (⟨false, none, none, none, Msg.notYourTurnOrGameOver⟩, s)
  else if s.boneyard.isEmpty then
    some (⟨false, none, none, none, Msg.noTilesLeftToDraw⟩, s)
  else
    player_draw_loop (s.boneyard.length + 1) s []

/-- Python max(hand, key) for Tiles (used at dominoes_game.py:70-71 and in
_get_highest_tile): the first element of maximal key, none on empty. -/
def py_max_tile (key : Tile → Nat) (l : List Tile) : Option Tile :=
  match l with
  | [] => none
  | t :: ts => some (ts.foldl (fun acc x => if key x > key acc then x else acc) t)

/-- DominoesGame._get_highest_tile (dominoes_game.py:108-110). -/
def get_highest_tile (hand : List Tile) : Option Tile := py_max_tile tile_value hand

/-- DominoesGame._ai_play_opening_double (dominoes_game.py:96-100). -/
def ai_play_opening_double (s : GameState) (double_tile : Tile) : GameState :=
  { s with board := s.board ++ [double_tile],
           ai_hand := remove_eq s.ai_hand double_tile,
           current_player := Player.player }

/-- DominoesGame._ai_play_opening_tile (dominoes_game.py:102-106);
textually identical to the double variant. -/
def ai_play_opening_tile (s : GameState) (tile : Tile) : GameState :=
  { s with board := s.board ++ [tile],
           ai_hand := remove_eq s.ai_hand tile,
           current_player := Player.player }

/-- DominoesGame._determine_starting_player (dominoes_game.py:64-94).
none models the ValueError Python max would raise on an empty hand in the
no-doubles branch (unreachable after a real deal). -/
def determine_starting_player (s : GameState) : Option GameState :=
  let player_doubles := s.player_hand.filter Tile.is_double
  let ai_doubles := s.ai_hand.filter Tile.is_double
  let player_highest_double := py_max_tile (fun t => t.left) player_doubles
  let ai_highest_double := py_max_tile (fun t => t.left) ai_doubles
  match ai_highest_double, player_highest_double with
  | some a, some p =>
    if a.left > p.left then
      some (ai_play_opening_double { s with current_player := Player.ai } a)
    else
      some { s with current_player := Player.player }
  | some a, none =>
    some (ai_play_opening_double { s with current_player := Player.ai } a)
  | none, some _ =>
    some { s with current_player := Player.player }
  | none, none =>
    match get_highest_tile s.player_hand, get_highest_tile s.ai_hand with
    | some player_highest, some ai_highest =>
      if tile_value ai_highest > tile_value player_highest then
        some (ai_play_opening_tile { s with current_player := Player.ai } ai_highest)
      else
        some { s with current_player := Player.player }
    | _, _ => none

/-- DominoesGame._deal_tiles (dominoes_game.py:54-62): the shuffled set is
passed explicitly (random.shuffle is a permutation of the fresh set). -/
def deal_tiles (shuffled : List Tile) (s : GameState) : Option GameState :=
  determine_starting_player
    { s with player_hand := shuffled.take 7,
             ai_hand := (shuffled.drop 7).take 7,
             boneyard := shuffled.drop 14 }

/-- DominoesGame.__init__ (dominoes_game.py:35-44), parametrized by the
shuffled tile order. -/
def new_game (shuffled : List Tile) : Option GameState :=
  deal_tiles shuffled
    { player_hand := [], ai_hand := [], board := [], boneyard := [],
      current_player := Player.player, game_over := false, winner := none }

/-- Return dictionary of get_game_state (dominoes_game.py:347-359). -/
structure GameStateView where
  current_player : Player
  game_over : Bool
  winner : Option Player
  player_tile_count : Nat
  ai_tile_count : Nat
  boneyard_count : Nat
  board_ends : Option Nat × Option Nat
  player_can_play : Bool
deriving DecidableEq, Repr

/-- DominoesGame.can_player_play_any_tile (dominoes_game.py:337-345). -/
def can_player_play_any_tile (s : GameState) : Bool :=
  let hand := if s.current_player == Player.player then s.player_hand else s.ai_hand
  hand.any fun t => (can_play_tile s.board t).left || (can_play_tile s.board t).right

/-- DominoesGame.get_game_state (dominoes_game.py:347-359). -/
def get_game_state (s : GameState) : GameStateView :=
  { current_player := s.current_player
    game_over := s.game_over
    winner := s.winner
    player_tile_count := s.player_hand.length
    ai_tile_count := s.ai_hand.length
    boneyard_count := s.boneyard.length
    board_ends := get_board_ends s.board
    player_can_play :=
      if s.current_player == Player.player then can_player_play_any_tile s else true }

/-- States reachable by the public operations: construction from any
shuffle of the full set, then play_player_tile (normal return or
propagated exception), ai_play and player_draw_until_playable. -/
inductive Reachable : GameState → Prop where
  | init : ∀ shuffled s, shuffled.Perm create_domino_set →
      new_game shuffled = some s → Reachable s
  | play : ∀ s d pos r s', Reachable s →
      play_player_tile s d pos = Except.ok (r, s') → Reachable s'
  | playExn : ∀ s d pos s', Reachable s →
      play_player_tile s d pos = Except.error s' → Reachable s'
  | aiStep : ∀ s r s', Reachable s →
      ai_play s = some (r, s') → Reachable s'
  | draw : ∀ s r s', Reachable s →
      player_draw_until_playable s = some (r, s') → Reachable s'

/-! ### Helper lemmas shared by several claims -/

/-- mem_eq holds at any actual list member (Tile.__eq__ is reflexive). -/
lemma mem_eq_of_mem {hand : List Tile} {t : Tile} (h : t ∈ hand) :
    mem_eq hand t = true := by
  simp only [mem_eq, List.any_eq_true]
  exact ⟨t, h, by simp [tile_eq]⟩

/-- py_max_tile returns an element of its argument. -/
lemma py_max_tile_mem {key : Tile → Nat} {l : List Tile} {t : Tile}
    (h : py_max_tile key l = some t) : t ∈ l := by
  match l with
  | [] => simp [py_max_tile] at h
  | a :: as =>
    simp only [py_max_tile, Option.some.injEq] at h
    subst h
    suffices h2 : ∀ (ts : List Tile) (acc : Tile),
        ts.foldl (fun acc x => if key x > key acc then x else acc) acc = acc ∨
        ts.foldl (fun acc x => if key x > key acc then x else acc) acc ∈ ts by
      rcases h2 as a with h3 | h3
      · rw [h3]; exact List.mem_cons_self a as
      · exact List.mem_cons_of_mem a h3
    intro ts
    induction ts with
    | nil => intro acc; left; rfl
    | cons b bs ih =>
      intro acc
      simp only [List.foldl_cons]
      rcases ih (if key b > key acc then b else acc) with h3 | h3
      · rw [h3]
        by_cases hb : key b > key acc
        · right; simp [hb]
        · left; simp [hb]
      · right; exact List.mem_cons_of_mem b h3

/-- py_max_tile returns a maximizer of the key. -/
lemma py_max_tile_max {key : Tile → Nat} {l : List Tile} {t : Tile}
    (h : py_max_tile key l = some t) : ∀ x ∈ l, key x ≤ key t := by
  match l with
  | [] => simp [py_max_tile] at h
  | a :: as =>
    simp only [py_max_tile, Option.some.injEq] at h
    subst h
    suffices h2 : ∀ (ts : List Tile) (acc : Tile),
        key acc ≤ key (ts.foldl (fun acc x => if key x > key acc then x else acc) acc) ∧
        ∀ x ∈ ts, key x ≤ key (ts.foldl (fun acc x => if key x > key acc then x else acc) acc) by
      intro x hx
      rcases List.mem_cons.mp hx with rfl | hx
      · exact (h2 as x).1
      · exact (h2 as a).2 x hx
    intro ts
    induction ts with
    | nil => intro acc; exact ⟨le_refl _, by simp⟩
    | cons b bs ih =>
      intro acc
      simp only [List.foldl_cons]
      constructor
      · by_cases hb : key b > key acc
        · simp only [hb, if_true]
          exact le_trans (le_of_lt hb) (ih b).1
        · simp only [hb, if_false]
          exact (ih acc).1
      · intro x hx
        rcases List.mem_cons.mp hx with rfl | hx
        · by_cases hb : key x > key acc
          · simp only [hb, if_true]; exact (ih x).1
          · simp only [hb, if_false]
            exact le_trans (le_of_not_lt hb) (ih acc).1
        · by_cases hb : key b > key acc
          · simp only [hb, if_true]; exact (ih b).2 x hx
          · simp only [hb, if_false]; exact (ih acc).2 x hx

/-- check_game_over only writes the game_over and winner fields. -/
lemma check_game_over_eq (s : GameState) :
    ∃ g w, check_game_over s = { s with game_over := g, winner := w } := by
  unfold check_game_over
  dsimp only
  split_ifs <;> exact ⟨_, _, rfl⟩

lemma check_game_over_player_hand (s : GameState) :
    (check_game_over s).player_hand = s.player_hand := by
  obtain ⟨g, w, h⟩ := check_game_over_eq s; rw [h]

lemma check_game_over_ai_hand (s : GameState) :
    (check_game_over s).ai_hand = s.ai_hand := by
  obtain ⟨g, w, h⟩ := check_game_over_eq s; rw [h]

lemma check_game_over_board (s : GameState) :
    (check_game_over s).board = s.board := by
  obtain ⟨g, w, h⟩ := check_game_over_eq s; rw [h]

lemma check_game_over_boneyard (s : GameState) :
    (check_game_over s).boneyard = s.boneyard := by
  obtain ⟨g, w, h⟩ := check_game_over_eq s; rw [h]

lemma check_game_over_current_player (s : GameState) :
    (check_game_over s).current_player = s.current_player := by
  obtain ⟨g, w, h⟩ := check_game_over_eq s; rw [h]

/-! ### C8: can_play_tile -/

/-- C8: for every tile and board, can_play_tile reports both sides legal on
an empty board; otherwise left is legal iff the tile carries the left end
value and right iff it carries the right end value; in particular the
double (3,3) against board ends 3 and 7 is playable left, not right. -/
theorem C8_can_play_tile_matches_ends (board : List Tile) (tile : Tile) :
    (board = [] → can_play_tile board tile = ⟨true, true⟩) ∧
    (∀ le ri, get_board_ends board = (some le, some ri) →
      can_play_tile board tile = ⟨tile.has_value le, tile.has_value ri⟩) ∧
    can_play_tile [⟨3, 7⟩] ⟨3, 3⟩ = ⟨true, false⟩ := by
  refine ⟨?_, ?_, by decide⟩
  · rintro rfl; rfl
  · intro le ri h
    match board with
    | [] => simp [get_board_ends] at h
    | t :: rest =>
      simp only [get_board_ends, Prod.mk.injEq, Option.some.injEq] at h
      simp only [can_play_tile, h.1, h.2]

/-- C8 witness at concrete inputs: empty board and the (3,3) scenario. -/
theorem C8_can_play_tile_matches_ends_witness :
    can_play_tile [] ⟨1, 2⟩ = ⟨true, true⟩ ∧
    can_play_tile [⟨3, 7⟩] ⟨3, 3⟩ = ⟨Tile.has_value ⟨3, 3⟩ 3, Tile.has_value ⟨3, 3⟩ 7⟩ :=
  ⟨(C8_can_play_tile_matches_ends [] ⟨1, 2⟩).1 rfl,
   (C8_can_play_tile_matches_ends [⟨3, 7⟩] ⟨3, 3⟩).2.1 3 7 (by decide)⟩

/-! ### C7: play_tile placement and orientation -/

/-- Board right end after appending a tile. -/
lemma last_right_concat (rest : List Tile) (t x : Tile) :
    last_right t (rest ++ [x]) = x.right := by
  induction rest generalizing t with
  | nil => rfl
  | cons u us ih => exact ih u

/-- Board right end after appending a tile. -/
lemma get_board_ends_snd_concat (board : List Tile) (x : Tile) :
    (get_board_ends (board ++ [x])).2 = some x.right := by
  cases board with
  | nil => rfl
  | cons t rest => simp only [List.cons_append, get_board_ends, last_right_concat]

/-- C7: with a non-empty board, a hand tile carrying the right end value
always plays on the right: it is appended oriented with its matching pip
adjacent (the other pip becomes the new right end) and removed from the
hand; the left side is symmetric with prepending; any failing call leaves
hand and board unchanged; and the concrete (1,2)+(2,5) scenario holds. -/
theorem C7_play_tile_placement :
    (∀ (hand board : List Tile) (tile : Tile), board ≠ [] →
      tile ∈ hand →
      ∀ ri, (get_board_ends board).2 = some ri →
      tile.has_value ri = true →
      ∃ ori : Tile,
        play_tile tile "right" hand board = ⟨true, remove_eq hand tile, board ++ [ori]⟩ ∧
        ori.left = ri ∧ tile_eq ori tile = true ∧
        (get_board_ends (board ++ [ori])).2 = some ori.right) ∧
    (∀ (hand board : List Tile) (tile : Tile), board ≠ [] →
      tile ∈ hand →
      ∀ le, (get_board_ends board).1 = some le →
      tile.has_value le = true →
      ∃ ori : Tile,
        play_tile tile "left" hand board = ⟨true, remove_eq hand tile, ori :: board⟩ ∧
        ori.right = le ∧ tile_eq ori tile = true ∧
        (get_board_ends (ori :: board)).1 = some ori.left) ∧
    (∀ (hand board : List Tile) (tile : Tile) (pos : String),
      (play_tile tile pos hand board).ok = false →
      play_tile tile pos hand board = ⟨false, hand, board⟩) ∧
    play_tile ⟨2, 5⟩ "right" [⟨2, 5⟩] [⟨1, 2⟩] = ⟨true, [], [⟨1, 2⟩, ⟨2, 5⟩]⟩ ∧
    (get_board_ends [⟨1, 2⟩, ⟨2, 5⟩]).2 = some 5 := by
  refine ⟨?_, ?_, ?_, by decide, by decide⟩
  · intro hand board tile hb hmem ri hri hval
    match board with
    | [] => exact absurd rfl hb
    | t :: rest =>
      simp only [get_board_ends, Option.some.injEq] at hri
      subst hri
      unfold play_tile
      rw [mem_eq_of_mem hmem]
      have c1 : ¬((("right" : String) == "left" && tile.has_value t.left) = true) := by
        simp
      have c2 : (("right" : String) == "right" && tile.has_value (last_right t rest)) = true := by
        simp [hval]
      simp only [Bool.not_true, Bool.false_eq_true, if_false]
      rw [if_neg c1, if_pos c2]
      by_cases hl : (tile.left == last_right t rest) = true
      · rw [if_pos hl]
        exact ⟨tile, rfl, by simpa using hl, by simp [tile_eq],
          get_board_ends_snd_concat _ _⟩
      · rw [if_neg hl]
        have hr : tile.right = last_right t rest := by
          simp only [Tile.has_value, Bool.or_eq_true, beq_iff_eq] at hval
          simp only [beq_iff_eq] at hl
          tauto
        exact ⟨⟨tile.right, tile.left⟩, rfl, hr, by simp [tile_eq],
          get_board_ends_snd_concat _ _⟩
  · intro hand board tile hb hmem le hle hval
    match board with
    | [] => exact absurd rfl hb
    | t :: rest =>
      simp only [get_board_ends, Option.some.injEq] at hle
      subst hle
      unfold play_tile
      rw [mem_eq_of_mem hmem]
      have c1 : ((("left" : String) == "left" && tile.has_value t.left) = true) := by
        simp [hval]
      simp only [Bool.not_true, Bool.false_eq_true, if_false]
      rw [if_pos c1]
      by_cases hr : (tile.right == t.left) = true
      · rw [if_pos hr]
        exact ⟨tile, rfl, by simpa using hr, by simp [tile_eq], rfl⟩
      · rw [if_neg hr]
        have hl : tile.left = t.left := by
          simp only [Tile.has_value, Bool.or_eq_true, beq_iff_eq] at hval
          simp only [beq_iff_eq] at hr
          tauto
        exact ⟨⟨tile.right, tile.left⟩, rfl, hl, by simp [tile_eq], rfl⟩
  · intro hand board tile pos h
    cases board with
    | nil =>
      unfold play_tile at h ⊢
      split_ifs at h ⊢ with h1
      rfl
    | cons t rest =>
      unfold play_tile at h ⊢
      dsimp only at h ⊢
      split_ifs at h ⊢ <;> simp_all

/-- C7 witness: the scenario board [(1,2)], tile (2,5), side right. -/
theorem C7_play_tile_placement_witness :
    (play_tile ⟨2, 5⟩ "right" [⟨2, 5⟩] [⟨1, 2⟩]).ok = true := by
  obtain ⟨ori, h1, -, -, -⟩ :=
    C7_play_tile_placement.1 [⟨2, 5⟩] [⟨1, 2⟩] ⟨2, 5⟩ (by decide) (by decide) 2
      (by decide) (by decide)
  rw [h1]

/-! ### C4: starting-player determination -/

/-- py_max_tile is some on a non-empty list. -/
lemma py_max_tile_ne_nil {key : Tile → Nat} {l : List Tile} (h : l ≠ []) :
    ∃ t, py_max_tile key l = some t := by
  match l with
  | [] => exact absurd rfl h
  | a :: as => exact ⟨_, rfl⟩

/-- C4: every tie in starting-player determination goes to the player:
with equal highest doubles, or no doubles and equal highest sums, the
player starts (the state is only marked player-to-move, no auto-play);
the side holding the only double starts; and whenever the AI starts (the
state is not the plain player-to-move state) it had a strictly greater
highest double, the only double, or a strictly greater highest sum. -/
theorem C4_starting_ties_go_to_player (s : GameState)
    (hp : s.player_hand ≠ []) (ha : s.ai_hand ≠ []) :
    ∃ s', determine_starting_player s = some s' ∧
      (∀ a p, py_max_tile (fun t => t.left) (s.ai_hand.filter Tile.is_double) = some a →
        py_max_tile (fun t => t.left) (s.player_hand.filter Tile.is_double) = some p →
        a.left ≤ p.left → s' = { s with current_player := Player.player }) ∧
      (py_max_tile (fun t => t.left) (s.ai_hand.filter Tile.is_double) = none →
        py_max_tile (fun t => t.left) (s.player_hand.filter Tile.is_double) = none →
        ∀ ph ah, get_highest_tile s.player_hand = some ph →
        get_highest_tile s.ai_hand = some ah →
        tile_value ah ≤ tile_value ph →
        s' = { s with current_player := Player.player }) ∧
      (∀ p, py_max_tile (fun t => t.left) (s.player_hand.filter Tile.is_double) = some p →
        py_max_tile (fun t => t.left) (s.ai_hand.filter Tile.is_double) = none →
        s' = { s with current_player := Player.player }) ∧
      (∀ a, py_max_tile (fun t => t.left) (s.ai_hand.filter Tile.is_double) = some a →
        py_max_tile (fun t => t.left) (s.player_hand.filter Tile.is_double) = none →
        s' = ai_play_opening_double { s with current_player := Player.ai } a) ∧
      (s' ≠ { s with current_player := Player.player } →
        (∃ a p, py_max_tile (fun t => t.left) (s.ai_hand.filter Tile.is_double) = some a ∧
          py_max_tile (fun t => t.left) (s.player_hand.filter Tile.is_double) = some p ∧
          p.left < a.left) ∨
        (∃ a, py_max_tile (fun t => t.left) (s.ai_hand.filter Tile.is_double) = some a ∧
          py_max_tile (fun t => t.left) (s.player_hand.filter Tile.is_double) = none) ∨
        (py_max_tile (fun t => t.left) (s.ai_hand.filter Tile.is_double) = none ∧
          py_max_tile (fun t => t.left) (s.player_hand.filter Tile.is_double) = none ∧
          ∃ ph ah, get_highest_tile s.player_hand = some ph ∧
            get_highest_tile s.ai_hand = some ah ∧ tile_value ph < tile_value ah)) := by
  unfold determine_starting_player
  dsimp only
  cases hA : py_max_tile (fun t => t.left) (List.filter Tile.is_double s.ai_hand) with
  | some a =>
    cases hP : py_max_tile (fun t => t.left) (List.filter Tile.is_double s.player_hand) with
    | some p =>
      dsimp only
      by_cases hgt : a.left > p.left
      · rw [if_pos hgt]
        refine ⟨_, rfl, ?_, ?_, ?_, ?_, ?_⟩
        · intro a' p' ha' hp' hle; cases ha'; cases hp'; omega
        · intro h; cases h
        · intro p' _ h; cases h
        · intro a' _ h; cases h
        · intro _; exact Or.inl ⟨a, p, rfl, rfl, hgt⟩
      · rw [if_neg hgt]
        refine ⟨_, rfl, ?_, ?_, ?_, ?_, ?_⟩
        · intro a' p' _ _ _; rfl
        · intro h; cases h
        · intro p' _ _; rfl
        · intro a' _ h; cases h
        · intro h; exact absurd rfl h
    | none =>
      dsimp only
      refine ⟨_, rfl, ?_, ?_, ?_, ?_, ?_⟩
      · intro a' p' _ h _; cases h
      · intro h; cases h
      · intro p' h _; cases h
      · intro a' ha' _; cases ha'; rfl
      · intro _; exact Or.inr (Or.inl ⟨a, rfl, rfl⟩)
  | none =>
    cases hP : py_max_tile (fun t => t.left) (List.filter Tile.is_double s.player_hand) with
    | some p =>
      dsimp only
      refine ⟨_, rfl, ?_, ?_, ?_, ?_, ?_⟩
      · intro a' p' h _ _; cases h
      · intro _ h; cases h
      · intro p' _ _; rfl
      · intro a' h _; cases h
      · intro h; exact absurd rfl h
    | none =>
      dsimp only
      obtain ⟨ph, hph⟩ := @py_max_tile_ne_nil tile_value _ hp
      obtain ⟨ah, hah⟩ := @py_max_tile_ne_nil tile_value _ ha
      have hph' : get_highest_tile s.player_hand = some ph := hph
      have hah' : get_highest_tile s.ai_hand = some ah := hah
      rw [hph', hah']
      dsimp only
      by_cases hgt : tile_value ah > tile_value ph
      · rw [if_pos hgt]
        refine ⟨_, rfl, ?_, ?_, ?_, ?_, ?_⟩
        · intro a' p' h _ _; cases h
        · intro _ _ ph' ah' hph2 hah2 hle; cases hph2; cases hah2; omega
        · intro p' h _; cases h
        · intro a' h _; cases h
        · intro _; exact Or.inr (Or.inr ⟨rfl, rfl, ph, ah, rfl, rfl, hgt⟩)
      · rw [if_neg hgt]
        refine ⟨_, rfl, ?_, ?_, ?_, ?_, ?_⟩
        · intro a' p' h _ _; cases h
        · intro _ _ ph' ah' _ _ _; rfl
        · intro p' h _; cases h
        · intro a' h _; cases h
        · intro h; exact absurd rfl h

/-- C4 witness: a concrete deal where both sides hold doubles with the
same highest pip, hence the player starts. -/
theorem C4_starting_ties_go_to_player_witness :
    (determine_starting_player
      { player_hand := [⟨3, 3⟩, ⟨1, 2⟩], ai_hand := [⟨3, 3⟩, ⟨0, 4⟩], board := [],
        boneyard := [], current_player := Player.player, game_over := false,
        winner := none }).isSome = true := by
  obtain ⟨s', h, -⟩ := C4_starting_ties_go_to_player
    { player_hand := [⟨3, 3⟩, ⟨1, 2⟩], ai_hand := [⟨3, 3⟩, ⟨0, 4⟩], board := [],
      boneyard := [], current_player := Player.player, game_over := false,
      winner := none } (by decide) (by decide)
  rw [h]
  rfl

/-! ### C3: tile lookup in play_player_tile -/

/-- A state whose player hand holds the tile (2,5), stored in that
orientation. -/
def hand25_state : GameState :=
  { player_hand := [⟨2, 5⟩], ai_hand := [⟨0, 0⟩], board := [⟨5, 1⟩],
    boneyard := [⟨3, 4⟩], current_player := Player.player, game_over := false,
    winner := none }

/-- C3 counterexample: the hand holds (2,5), the request names the same
unordered pair as (5,2) — symmetric Tile equality matches and the play
would be legal on the left end — yet play_player_tile rejects it as not
in hand, because the lookup compares left with left and right with right. -/
theorem C3_counterexample_flipped_request_rejected :
    tile_eq ⟨2, 5⟩ ⟨5, 2⟩ = true ∧
    ⟨2, 5⟩ ∈ hand25_state.player_hand ∧
    (can_play_tile hand25_state.board ⟨2, 5⟩).left = true ∧
    play_player_tile hand25_state ⟨5, 2⟩ "left" =
      Except.ok (⟨false, Msg.tileNotInYourHand⟩, hand25_state) := by
  refine ⟨by decide, by decide, by decide, by rfl⟩

/-- C3 amended: the lookup is an exact field-wise match in the requested
orientation — not-in-hand is returned exactly when no hand tile has left
equal to the requested left and right equal to the requested right. -/
theorem C3_lookup_is_exact_orientation (s : GameState) (d : TileDict) (pos : String)
    (h1 : s.current_player = Player.player) (h2 : s.game_over = false) :
    (find_exact s.player_hand d = none ↔
      ∀ t ∈ s.player_hand, ¬(t.left = d.left ∧ t.right = d.right)) ∧
    (play_player_tile s d pos = Except.ok (⟨false, Msg.tileNotInYourHand⟩, s) ↔
      find_exact s.player_hand d = none) := by
  have hturn : (s.current_player != Player.player || s.game_over) = false := by
    simp [h1, h2]
  constructor
  · rw [find_exact, List.find?_eq_none]
    constructor
    · intro h t ht hc
      have := h t ht
      simp [hc.1, hc.2] at this
    · intro h t ht
      have := h t ht
      simp only [Bool.and_eq_true, beq_iff_eq]
      tauto
  · constructor
    · intro h
      cases hf : find_exact s.player_hand d with
      | none => rfl
      | some t =>
      exfalso
      unfold play_player_tile at h
      rw [hturn] at h
      simp only [Bool.false_eq_true, if_false, hf] at h
      cases hpa : playable_at (can_play_tile s.board t) pos with
      | none => rw [hpa] at h; cases h
      | some b =>
        rw [hpa] at h
        by_cases hb : b
        · simp only [hb, Bool.not_true, Bool.false_eq_true, if_false] at h
          by_cases hok : (play_tile t pos s.player_hand s.board).ok
          · simp only [hok, if_true] at h
            cases h
          · simp only [hok, Bool.false_eq_true, if_false] at h
            cases h
        · simp only [Bool.not_eq_true] at hb
          subst hb
          simp only [Bool.not_false, if_true] at h
          cases h
    · intro h
      unfold play_player_tile
      rw [hturn]
      simp only [Bool.false_eq_true, if_false, h]

/-- C3 witness: the amended lookup rule applied to the concrete state. -/
theorem C3_lookup_is_exact_orientation_witness :
    find_exact hand25_state.player_hand ⟨5, 2⟩ = none ∧
    play_player_tile hand25_state ⟨5, 2⟩ "left" =
      Except.ok (⟨false, Msg.tileNotInYourHand⟩, hand25_state) := by
  have h := C3_lookup_is_exact_orientation hand25_state ⟨5, 2⟩ "left" rfl rfl
  have hn : find_exact hand25_state.player_hand ⟨5, 2⟩ = none := by decide
  exact ⟨hn, h.2.mpr hn⟩

/-! ### C2: malformed input to play_player_tile -/

/-- A mid-game state whose player hand holds (1,2) and whose board left
end is 2, so the tile itself is legal to play. -/
def hand12_state : GameState :=
  { player_hand := [⟨1, 2⟩], ai_hand := [⟨0, 0⟩], board := [⟨2, 3⟩],
    boneyard := [⟨4, 4⟩], current_player := Player.player, game_over := false,
    winner := none }

/-- C2: an out-of-range tile spec is indeed rejected as not-in-hand with
the state unchanged, but a side string that is neither left nor right is
NOT rejected as an invalid move: with the requested tile present in the
hand, play_player_tile raises an uncaught KeyError (modelled Except.error)
at the playable[position] subscript, contradicting the no-crash claim. -/
theorem C2_bad_side_raises_instead_of_rejecting :
    play_player_tile hand12_state ⟨9, 9⟩ "left" =
      Except.ok (⟨false, Msg.tileNotInYourHand⟩, hand12_state) ∧
    play_player_tile hand12_state ⟨1, 2⟩ "up" = Except.error hand12_state := by
  exact ⟨by rfl, by rfl⟩

/-! ### C9: the playerCanPlay field of get_game_state -/

/-- A shuffle of the double-six set giving the player every 6-tile and the
AI a hand with no 6 and no double above 1. -/
def shuffle9 : List Tile :=
  [⟨6, 6⟩, ⟨5, 6⟩, ⟨4, 6⟩, ⟨3, 6⟩, ⟨2, 6⟩, ⟨1, 6⟩, ⟨0, 6⟩,
   ⟨0, 0⟩, ⟨0, 1⟩, ⟨0, 2⟩, ⟨0, 3⟩, ⟨0, 4⟩, ⟨1, 1⟩, ⟨1, 2⟩,
   ⟨0, 5⟩, ⟨1, 3⟩, ⟨1, 4⟩, ⟨1, 5⟩, ⟨2, 2⟩, ⟨2, 3⟩, ⟨2, 4⟩,
   ⟨2, 5⟩, ⟨3, 3⟩, ⟨3, 4⟩, ⟨3, 5⟩, ⟨4, 4⟩, ⟨4, 5⟩, ⟨5, 5⟩]

/-- The state constructed from shuffle9: the player holds the highest
double, so the player starts and no opening tile is auto-played. -/
def game9 : GameState :=
  { player_hand := [⟨6, 6⟩, ⟨5, 6⟩, ⟨4, 6⟩, ⟨3, 6⟩, ⟨2, 6⟩, ⟨1, 6⟩, ⟨0, 6⟩],
    ai_hand := [⟨0, 0⟩, ⟨0, 1⟩, ⟨0, 2⟩, ⟨0, 3⟩, ⟨0, 4⟩, ⟨1, 1⟩, ⟨1, 2⟩],
    board := [],
    boneyard := [⟨0, 5⟩, ⟨1, 3⟩, ⟨1, 4⟩, ⟨1, 5⟩, ⟨2, 2⟩, ⟨2, 3⟩, ⟨2, 4⟩,
                 ⟨2, 5⟩, ⟨3, 3⟩, ⟨3, 4⟩, ⟨3, 5⟩, ⟨4, 4⟩, ⟨4, 5⟩, ⟨5, 5⟩],
    current_player := Player.player, game_over := false, winner := none }

/-- game9 after the player opens with the double six: the AI is to move
and holds no tile carrying a 6, so the side to move has no legal move. -/
def game9_after : GameState :=
  { game9 with
    player_hand := [⟨5, 6⟩, ⟨4, 6⟩, ⟨3, 6⟩, ⟨2, 6⟩, ⟨1, 6⟩, ⟨0, 6⟩],
    board := [⟨6, 6⟩],
    current_player := Player.ai }

/-- C9 counterexample: in a state reached by construction plus one player
move, it is the AI's turn and the AI hand has no playable tile, yet
get_game_state reports player_can_play as true (the field is hard-coded
true whenever current_player is ai). -/
theorem C9_counterexample_ai_turn_hardcoded_true :
    List.Perm shuffle9 create_domino_set ∧
    new_game shuffle9 = some game9 ∧
    play_player_tile game9 ⟨6, 6⟩ "left" =
      Except.ok (⟨true, Msg.tilePlayedSuccessfully⟩, game9_after) ∧
    game9_after.current_player = Player.ai ∧
    can_player_play_any_tile game9_after = false ∧
    (get_game_state game9_after).player_can_play = true := by
  refine ⟨by decide, by rfl, by rfl, by rfl, by rfl, by rfl⟩

/-- C9 amended: player_can_play equals whether the human player has a
legal move when it is the player's turn, and is constantly true on the
AI's turn regardless of the AI hand. -/
theorem C9_player_can_play_field (s : GameState) :
    (s.current_player = Player.player →
      ((get_game_state s).player_can_play = true ↔
        ∃ t ∈ s.player_hand, (can_play_tile s.board t).left = true ∨
          (can_play_tile s.board t).right = true)) ∧
    (s.current_player = Player.ai → (get_game_state s).player_can_play = true) := by
  constructor
  · intro h
    simp only [get_game_state, can_player_play_any_tile, h, beq_self_eq_true, if_true,
      List.any_eq_true, Bool.or_eq_true]
  · intro h
    simp [get_game_state, h]

/-- C9 witness for the amended claim, at the concrete counterexample
state (AI to move) and at the fresh game (player to move). -/
theorem C9_player_can_play_field_witness :
    (get_game_state game9_after).player_can_play = true ∧
    ((get_game_state game9).player_can_play = true ↔
      ∃ t ∈ game9.player_hand, (can_play_tile game9.board t).left = true ∨
        (can_play_tile game9.board t).right = true) :=
  ⟨(C9_player_can_play_field game9_after).2 rfl,
   (C9_player_can_play_field game9).1 rfl⟩

/-! ### C6: blocked-game detection and scoring -/

/-- The blocked branch of check_game_over: non-empty hands, empty
boneyard, no legal move on either side. -/
lemma check_game_over_blocked {s : GameState}
    (hp : s.player_hand ≠ []) (ha : s.ai_hand ≠ []) (hb : s.boneyard = [])
    (hcp : any_can_play s.board s.player_hand = false)
    (hca : any_can_play s.board s.ai_hand = false) :
    (check_game_over s).game_over = true ∧
    (check_game_over s).winner =
      some (if hand_total s.player_hand < hand_total s.ai_hand
            then Player.player else Player.ai) := by
  have h1 : s.player_hand.isEmpty = false := by
    simpa [List.isEmpty_iff] using hp
  have h2 : s.ai_hand.isEmpty = false := by
    simpa [List.isEmpty_iff] using ha
  have h3 : s.boneyard.isEmpty = true := by
    simp [List.isEmpty_iff, hb]
  unfold check_game_over
  dsimp only
  simp only [h1, h2, h3, hcp, hca, Bool.false_eq_true, if_false, if_true,
    Bool.not_false, Bool.and_self]
  exact ⟨trivial, trivial⟩

/-- A successful play_player_tile call ends in a check_game_over state. -/
lemma play_player_tile_success_shape {s : GameState} {d : TileDict} {pos : String}
    {r : PlayerResult} {s' : GameState}
    (h : play_player_tile s d pos = Except.ok (r, s')) (hr : r.success = true) :
    ∃ s1, s' = check_game_over s1 := by
  unfold play_player_tile at h
  by_cases ht : (s.current_player != Player.player || s.game_over) = true
  · rw [if_pos ht] at h
    cases h; cases hr
  · rw [if_neg ht] at h
    cases hf : find_exact s.player_hand d with
    | none => rw [hf] at h; dsimp only at h; cases h; cases hr
    | some tile =>
      rw [hf] at h
      dsimp only at h
      cases hpa : playable_at (can_play_tile s.board tile) pos with
      | none => rw [hpa] at h; dsimp only at h; cases h
      | some b =>
        rw [hpa] at h
        dsimp only at h
        by_cases hbb : b
        · subst hbb
          simp only [Bool.not_true, Bool.false_eq_true, if_false] at h
          by_cases hok : (play_tile tile pos s.player_hand s.board).ok
          · simp only [hok, if_true] at h
            cases h
            exact ⟨_, rfl⟩
          · simp only [hok, Bool.false_eq_true, if_false] at h
            cases h; cases hr
        · simp only [Bool.not_eq_true] at hbb
          subst hbb
          simp only [Bool.not_false, if_true] at h
          cases h; cases hr

/-- A played=true result of the ai_play loop ends in a check_game_over
state. -/
lemma ai_play_loop_played_shape :
    ∀ (fuel : Nat) (s : GameState) (drawn : List Tile) (r : AiResult) (s' : GameState),
    ai_play_loop fuel s drawn = some (r, s') → r.played = true →
    ∃ s1, s' = check_game_over s1 := by
  intro fuel
  induction fuel with
  | zero => intro s drawn r s' h _; cases h
  | succ fuel ih =>
    intro s drawn r s' h hr
    unfold ai_play_loop at h
    dsimp only at h
    cases hm : py_max_move (playable_moves s.board s.ai_hand) with
    | some m =>
      obtain ⟨t, pos⟩ := m
      rw [hm] at h
      dsimp only at h
      by_cases hok : (play_tile t pos s.ai_hand s.board).ok
      · simp only [hok, if_true] at h
        cases h
        exact ⟨_, rfl⟩
      · simp only [hok, Bool.false_eq_true, if_false] at h
        cases hl : s.boneyard.getLast? with
        | some dt => rw [hl] at h; exact ih _ _ _ _ h hr
        | none => rw [hl] at h; dsimp only at h; cases h; cases hr
    | none =>
      rw [hm] at h
      dsimp only at h
      cases hl : s.boneyard.getLast? with
      | some dt => rw [hl] at h; exact ih _ _ _ _ h hr
      | none => rw [hl] at h; dsimp only at h; cases h; cases hr

/-- C6: after a successful play (via check_game_over, which both the
player path and the AI path invoke), a position with empty boneyard, both
hands non-empty and no legal move on either side ends the game blocked,
the winner being the side with strictly lower remaining pip total and the
AI on equal totals. -/
theorem C6_blocked_game_lower_pips_wins_ties_to_ai :
    (∀ s : GameState, s.player_hand ≠ [] → s.ai_hand ≠ [] → s.boneyard = [] →
      any_can_play s.board s.player_hand = false →
      any_can_play s.board s.ai_hand = false →
      (check_game_over s).game_over = true ∧
      (check_game_over s).winner =
        some (if hand_total s.player_hand < hand_total s.ai_hand
              then Player.player else Player.ai) ∧
      (hand_total s.player_hand = hand_total s.ai_hand →
        (check_game_over s).winner = some Player.ai)) ∧
    (∀ (s : GameState) (d : TileDict) (pos : String) (r : PlayerResult) (s' : GameState),
      play_player_tile s d pos = Except.ok (r, s') → r.success = true →
      s'.player_hand ≠ [] → s'.ai_hand ≠ [] → s'.boneyard = [] →
      any_can_play s'.board s'.player_hand = false →
      any_can_play s'.board s'.ai_hand = false →
      s'.game_over = true ∧
      s'.winner = some (if hand_total s'.player_hand < hand_total s'.ai_hand
                        then Player.player else Player.ai)) ∧
    (∀ (s : GameState) (r : AiResult) (s' : GameState),
      ai_play s = some (r, s') → r.played = true →
      s'.player_hand ≠ [] → s'.ai_hand ≠ [] → s'.boneyard = [] →
      any_can_play s'.board s'.player_hand = false →
      any_can_play s'.board s'.ai_hand = false →
      s'.game_over = true ∧
      s'.winner = some (if hand_total s'.player_hand < hand_total s'.ai_hand
                        then Player.player else Player.ai)) := by
  have main : ∀ s1 : GameState,
      (check_game_over s1).player_hand ≠ [] → (check_game_over s1).ai_hand ≠ [] →
      (check_game_over s1).boneyard = [] →
      any_can_play (check_game_over s1).board (check_game_over s1).player_hand = false →
      any_can_play (check_game_over s1).board (check_game_over s1).ai_hand = false →
      (check_game_over s1).game_over = true ∧
      (check_game_over s1).winner =
        some (if hand_total (check_game_over s1).player_hand <
                 hand_total (check_game_over s1).ai_hand
              then Player.player else Player.ai) := by
    intro s1
    rw [check_game_over_player_hand, check_game_over_ai_hand, check_game_over_board,
      check_game_over_boneyard]
    intro hp ha hb hcp hca
    exact check_game_over_blocked hp ha hb hcp hca
  refine ⟨?_, ?_, ?_⟩
  · intro s hp ha hb hcp hca
    obtain ⟨h1, h2⟩ := check_game_over_blocked hp ha hb hcp hca
    refine ⟨h1, h2, ?_⟩
    intro heq
    rw [h2, heq]
    simp
  · intro s d pos r s' h hr hp ha hb hcp hca
    obtain ⟨s1, rfl⟩ := play_player_tile_success_shape h hr
    exact main s1 hp ha hb hcp hca
  · intro s r s' h hr hp ha hb hcp hca
    unfold ai_play at h
    by_cases ht : (s.current_player != Player.ai || s.game_over) = true
    · rw [if_pos ht] at h
      cases h; cases hr
    · rw [if_neg ht] at h
      obtain ⟨s1, rfl⟩ := ai_play_loop_played_shape _ _ _ _ _ h hr
      exact main s1 hp ha hb hcp hca

/-- The pre-play fixture for the blocked-game scenario: the player can
play (1,2) on the left end, after which no side can move. -/
def blocked_pre : GameState :=
  { player_hand := [⟨1, 2⟩, ⟨0, 3⟩], ai_hand := [⟨0, 4⟩], board := [⟨1, 1⟩],
    boneyard := [], current_player := Player.player, game_over := false,
    winner := none }

/-- The state after that play: blocked, player total 3 against AI total 4. -/
def blocked_post : GameState :=
  { player_hand := [⟨0, 3⟩], ai_hand := [⟨0, 4⟩], board := [⟨2, 1⟩, ⟨1, 1⟩],
    boneyard := [], current_player := Player.ai, game_over := true,
    winner := some Player.player }

/-- C6 witness: a concrete game where the player's play blocks the game;
the player's remaining total 3 beats the AI's 4. -/
theorem C6_blocked_game_lower_pips_wins_ties_to_ai_witness :
    blocked_post.game_over = true ∧
    blocked_post.winner =
      some (if hand_total blocked_post.player_hand < hand_total blocked_post.ai_hand
            then Player.player else Player.ai) := by
  exact C6_blocked_game_lower_pips_wins_ties_to_ai.2.1 blocked_pre ⟨1, 2⟩ "left"
    ⟨true, Msg.tilePlayedSuccessfully⟩ blocked_post (by rfl) rfl (by decide) (by decide)
    rfl (by decide) (by decide)

/-! ### C10: passes never evaluate game-over -/

/-- If no hand tile is playable, the AI move scan is empty. -/
lemma playable_moves_nil {board hand : List Tile}
    (h : any_can_play board hand = false) : playable_moves board hand = [] := by
  induction hand with
  | nil => rfl
  | cons t ts ih =>
    simp only [any_can_play, List.any_cons, Bool.or_eq_false_iff] at h
    obtain ⟨h1, h2⟩ := h
    simp only [playable_moves, List.flatMap_cons, h1.1, h1.2, Bool.false_eq_true, if_false,
      List.nil_append]
    exact ih h2

/-- If no hand tile is playable, each member is unplayable on both ends. -/
lemma any_can_play_false_mem {board hand : List Tile} {t : Tile}
    (h : any_can_play board hand = false) (ht : t ∈ hand) :
    (can_play_tile board t).left = false ∧ (can_play_tile board t).right = false := by
  rw [any_can_play, List.any_eq_false] at h
  have := h t ht
  simp only [Bool.or_eq_true, not_or, Bool.not_eq_true] at this
  exact this

/-- The tile found by the exact lookup is a hand member. -/
lemma find_exact_mem {hand : List Tile} {d : TileDict} {t : Tile}
    (h : find_exact hand d = some t) : t ∈ hand :=
  List.mem_of_find?_eq_some h

/-- The playable dictionary of an unplayable tile never answers true. -/
lemma playable_at_false_false (pos : String) :
    playable_at ⟨false, false⟩ pos = none ∨ playable_at ⟨false, false⟩ pos = some false := by
  unfold playable_at
  split_ifs <;> simp

/-- C10: from a blocked position on the AI's turn (empty boneyard, no
legal move on either side, game not over), the AI pass transfers the turn
without touching game_over or winner, and the resulting player-to-move
state is a fixpoint: draws are rejected because the boneyard is empty,
every play attempt is rejected (or raises) with the state unchanged, and
ai_play is rejected as out of turn — so game_over stays false and winner
stays null forever. -/
theorem C10_blocked_passes_never_end_game (s : GameState)
    (hc : s.current_player = Player.ai) (hg : s.game_over = false)
    (hw : s.winner = none) (hb : s.boneyard = [])
    (hca : any_can_play s.board s.ai_hand = false)
    (hcp : any_can_play s.board s.player_hand = false) :
    ai_play s = some (⟨false, none, none, some false, some 0, Msg.aiPassed⟩,
      { s with current_player := Player.player }) ∧
    ({ s with current_player := Player.player }).game_over = false ∧
    ({ s with current_player := Player.player }).winner = none ∧
    player_draw_until_playable { s with current_player := Player.player } =
      some (⟨false, none, none, none, Msg.noTilesLeftToDraw⟩,
        { s with current_player := Player.player }) ∧
    (∀ (d : TileDict) (pos : String) (r : PlayerResult) (s'' : GameState),
      play_player_tile { s with current_player := Player.player } d pos =
        Except.ok (r, s'') →
      r.success = false ∧ s'' = { s with current_player := Player.player }) ∧
    (∀ (d : TileDict) (pos : String) (s'' : GameState),
      play_player_tile { s with current_player := Player.player } d pos =
        Except.error s'' →
      s'' = { s with current_player := Player.player }) ∧
    ai_play { s with current_player := Player.player } =
      some (⟨false, none, none, none, none, Msg.notAiTurnOrGameOver⟩,
        { s with current_player := Player.player }) := by
  refine ⟨?_, hg, hw, ?_, ?_, ?_, ?_⟩
  · unfold ai_play
    have hcond : (s.current_player != Player.ai || s.game_over) = false := by
      simp [hc, hg]
    simp only [hcond, Bool.false_eq_true, if_false]
    rw [hb]
    show ai_play_loop 1 s [] = _
    unfold ai_play_loop
    dsimp only
    rw [playable_moves_nil hca, hb]
    rfl
  · unfold player_draw_until_playable
    have hcond : (({ s with current_player := Player.player }).current_player
        != Player.player || ({ s with current_player := Player.player }).game_over) = false := by
      simp [hg]
    simp only [hcond, Bool.false_eq_true, if_false]
    have hbe : ({ s with current_player := Player.player }).boneyard.isEmpty = true := by
      simp [hb]
    simp only [hbe, if_true]
  · intro d pos r s'' h
    unfold play_player_tile at h
    have hcond : (({ s with current_player := Player.player }).current_player
        != Player.player || ({ s with current_player := Player.player }).game_over) = false := by
      simp [hg]
    simp only [hcond, Bool.false_eq_true, if_false] at h
    cases hf : find_exact ({ s with current_player := Player.player }).player_hand d with
    | none =>
      rw [hf] at h
      dsimp only at h
      cases h
      exact ⟨rfl, rfl⟩
    | some t =>
      rw [hf] at h
      dsimp only at h
      have hmem : t ∈ s.player_hand := find_exact_mem hf
      have hflags := any_can_play_false_mem hcp hmem
      have hpl : can_play_tile s.board t = ⟨false, false⟩ := by
        cases hcpt : can_play_tile s.board t with
        | mk l r =>
          rw [hcpt] at hflags
          obtain ⟨h1, h2⟩ := hflags
          cases h1; cases h2; rfl
      rw [hpl] at h
      rcases playable_at_false_false pos with hpa | hpa
      · rw [hpa] at h; cases h
      · rw [hpa] at h
        dsimp only at h
        simp only [Bool.not_false, if_true] at h
        cases h
        exact ⟨rfl, rfl⟩
  · intro d pos s'' h
    unfold play_player_tile at h
    have hcond : (({ s with current_player := Player.player }).current_player
        != Player.player || ({ s with current_player := Player.player }).game_over) = false := by
      simp [hg]
    simp only [hcond, Bool.false_eq_true, if_false] at h
    cases hf : find_exact ({ s with current_player := Player.player }).player_hand d with
    | none =>
      rw [hf] at h
      dsimp only at h
      cases h
    | some t =>
      rw [hf] at h
      dsimp only at h
      cases hpa : playable_at (can_play_tile
          ({ s with current_player := Player.player }).board t) pos with
      | none =>
        rw [hpa] at h
        dsimp only at h
        cases h
        rfl
      | some b =>
        rw [hpa] at h
        dsimp only at h
        by_cases hbb : b
        · subst hbb
          simp only [Bool.not_true, Bool.false_eq_true, if_false] at h
          by_cases hok : (play_tile t pos
              ({ s with current_player := Player.player }).player_hand
              ({ s with current_player := Player.player }).board).ok
          · simp only [hok, if_true] at h
            cases h
          · simp only [hok, Bool.false_eq_true, if_false] at h
            cases h
        · simp only [Bool.not_eq_true] at hbb
          subst hbb
          simp only [Bool.not_false, if_true] at h
          cases h
  · unfold ai_play
    have hcond : (({ s with current_player := Player.player }).current_player
        != Player.ai || ({ s with current_player := Player.player }).game_over) = true := by
      simp
    simp only [hcond, if_true]

/-- A concrete blocked position with the AI to move. -/
def blocked_ai_turn : GameState :=
  { player_hand := [⟨0, 1⟩], ai_hand := [⟨0, 2⟩], board := [⟨6, 6⟩],
    boneyard := [], current_player := Player.ai, game_over := false,
    winner := none }

/-- C10 witness: the blocked fixture evaluated through the theorem. -/
theorem C10_blocked_passes_never_end_game_witness :
    ai_play blocked_ai_turn =
      some (⟨false, none, none, some false, some 0, Msg.aiPassed⟩,
        { blocked_ai_turn with current_player := Player.player }) ∧
    player_draw_until_playable { blocked_ai_turn with current_player := Player.player } =
      some (⟨false, none, none, none, Msg.noTilesLeftToDraw⟩,
        { blocked_ai_turn with current_player := Player.player }) := by
  obtain ⟨h1, -, -, h4, -, -, -⟩ := C10_blocked_passes_never_end_game blocked_ai_turn
    rfl rfl rfl rfl (by decide) (by decide)
  exact ⟨h1, h4⟩

/-! ### C5: ai_play termination and move choice -/

/-- k successive AI draws from the boneyard. -/
def ai_draw_k : Nat → GameState → GameState
  | 0, s => s
  | k + 1, s => ai_draw_k k (ai_draw_one s)

/-- py_max_move returns an element of its argument. -/
lemma py_max_move_mem {l : List (Tile × String)} {m : Tile × String}
    (h : py_max_move l = some m) : m ∈ l := by
  match l with
  | [] => simp [py_max_move] at h
  | a :: as =>
    simp only [py_max_move, Option.some.injEq] at h
    subst h
    suffices h2 : ∀ (ts : List (Tile × String)) (acc : Tile × String),
        ts.foldl (fun acc x => if tile_value x.1 > tile_value acc.1 then x else acc) acc = acc ∨
        ts.foldl (fun acc x => if tile_value x.1 > tile_value acc.1 then x else acc) acc ∈ ts by
      rcases h2 as a with h3 | h3
      · rw [h3]; exact List.mem_cons_self a as
      · exact List.mem_cons_of_mem a h3
    intro ts
    induction ts with
    | nil => intro acc; left; rfl
    | cons b bs ih =>
      intro acc
      simp only [List.foldl_cons]
      rcases ih (if tile_value b.1 > tile_value acc.1 then b else acc) with h3 | h3
      · rw [h3]
        by_cases hb : tile_value b.1 > tile_value acc.1
        · right; simp [hb]
        · left; simp [hb]
      · right; exact List.mem_cons_of_mem b h3

/-- py_max_move returns a pair with maximal pip sum. -/
lemma py_max_move_max {l : List (Tile × String)} {m : Tile × String}
    (h : py_max_move l = some m) : ∀ x ∈ l, tile_value x.1 ≤ tile_value m.1 := by
  match l with
  | [] => simp [py_max_move] at h
  | a :: as =>
    simp only [py_max_move, Option.some.injEq] at h
    subst h
    suffices h2 : ∀ (ts : List (Tile × String)) (acc : Tile × String),
        tile_value acc.1 ≤ tile_value (ts.foldl
          (fun acc x => if tile_value x.1 > tile_value acc.1 then x else acc) acc).1 ∧
        ∀ x ∈ ts, tile_value x.1 ≤ tile_value (ts.foldl
          (fun acc x => if tile_value x.1 > tile_value acc.1 then x else acc) acc).1 by
      intro x hx
      rcases List.mem_cons.mp hx with rfl | hx
      · exact (h2 as x).1
      · exact (h2 as a).2 x hx
    intro ts
    induction ts with
    | nil => intro acc; exact ⟨le_refl _, by simp⟩
    | cons b bs ih =>
      intro acc
      simp only [List.foldl_cons]
      constructor
      · by_cases hb : tile_value b.1 > tile_value acc.1
        · simp only [hb, if_true]
          exact le_trans (le_of_lt hb) (ih b).1
        · simp only [hb, if_false]
          exact (ih acc).1
      · intro x hx
        rcases List.mem_cons.mp hx with rfl | hx
        · by_cases hb : tile_value x.1 > tile_value acc.1
          · simp only [hb, if_true]; exact (ih x).1
          · simp only [hb, if_false]
            exact le_trans (le_of_not_lt hb) (ih acc).1
        · by_cases hb : tile_value b.1 > tile_value acc.1
          · simp only [hb, if_true]; exact (ih b).2 x hx
          · simp only [hb, if_false]; exact (ih acc).2 x hx

/-- py_max_move is none exactly on the empty move list. -/
lemma py_max_move_eq_none {l : List (Tile × String)}
    (h : py_max_move l = none) : l = [] := by
  match l with
  | [] => rfl
  | a :: as => simp [py_max_move] at h

/-- Membership in the AI move scan decodes to hand membership and a
matching playability flag. -/
lemma mem_playable_moves {board hand : List Tile} {t : Tile} {pos : String}
    (h : (t, pos) ∈ playable_moves board hand) :
    t ∈ hand ∧ ((pos = "left" ∧ (can_play_tile board t).left = true) ∨
      (pos = "right" ∧ (can_play_tile board t).right = true)) := by
  simp only [playable_moves, List.mem_flatMap]  at h
  obtain ⟨tile, htile, hmem⟩ := h
  rw [List.mem_append] at hmem
  rcases hmem with hmem | hmem
  · by_cases hl : (can_play_tile board tile).left
    · rw [if_pos hl] at hmem
      simp only [List.mem_singleton, Prod.mk.injEq] at hmem
      obtain ⟨rfl, rfl⟩ := hmem
      exact ⟨htile, Or.inl ⟨rfl, hl⟩⟩
    · rw [if_neg hl] at hmem
      cases hmem
  · by_cases hr : (can_play_tile board tile).right
    · rw [if_pos hr] at hmem
      simp only [List.mem_singleton, Prod.mk.injEq] at hmem
      obtain ⟨rfl, rfl⟩ := hmem
      exact ⟨htile, Or.inr ⟨rfl, hr⟩⟩
    · rw [if_neg hr] at hmem
      cases hmem

/-- Every pair produced by the move scan plays successfully. -/
lemma play_from_moves_ok {board hand : List Tile} {t : Tile} {pos : String}
    (h : (t, pos) ∈ playable_moves board hand) :
    (play_tile t pos hand board).ok = true := by
  obtain ⟨hmem, hcase⟩ := mem_playable_moves h
  have hm : mem_eq hand t = true := mem_eq_of_mem hmem
  cases board with
  | nil =>
    unfold play_tile
    rw [hm]
    rfl
  | cons u rest =>
    unfold play_tile
    rw [hm]
    simp only [Bool.not_true, Bool.false_eq_true, if_false]
    rcases hcase with ⟨rfl, hflag⟩ | ⟨rfl, hflag⟩
    · simp only [can_play_tile] at hflag
      have c1 : (("left" : String) == "left" && t.has_value u.left) = true := by
        simp [hflag]
      rw [if_pos c1]
      split_ifs <;> rfl
    · simp only [can_play_tile] at hflag
      have c1 : ¬((("right" : String) == "left" && t.has_value u.left) = true) := by
        simp
      have c2 : (("right" : String) == "right" && t.has_value (last_right u rest)) = true := by
        simp [hflag]
      rw [if_neg c1, if_pos c2]
      split_ifs <;> rfl

/-- The ai_play while loop returns within boneyard+1 iterations: each
round either plays a maximal-sum playable pair (after k draws) or, with
the boneyard exhausted and no playable pair, passes. -/
lemma ai_play_loop_spec :
    ∀ (fuel : Nat) (s : GameState) (drawn : List Tile),
    s.boneyard.length < fuel →
    ∃ (r : AiResult) (s' : GameState),
      ai_play_loop fuel s drawn = some (r, s') ∧
      s'.current_player = Player.player ∧
      ((∃ k t pos, k ≤ s.boneyard.length ∧
          r.played = true ∧
          r.tile = some (Tile.to_dict t) ∧
          r.position = some pos ∧
          r.drew_count = some (drawn.length + k) ∧
          (t, pos) ∈ playable_moves (ai_draw_k k s).board (ai_draw_k k s).ai_hand ∧
          (∀ m ∈ playable_moves (ai_draw_k k s).board (ai_draw_k k s).ai_hand,
            tile_value m.1 ≤ tile_value t)) ∨
        (r.played = false ∧
          r.drew_count = some (drawn.length + s.boneyard.length) ∧
          s'.boneyard = [] ∧
          playable_moves s'.board s'.ai_hand = [])) := by
  intro fuel
  induction fuel with
  | zero => intro s drawn h; omega
  | succ fuel ih =>
    intro s drawn hfuel
    unfold ai_play_loop
    cases hm : py_max_move (playable_moves s.board s.ai_hand) with
    | some m =>
      obtain ⟨t, pos⟩ := m
      have hmem := py_max_move_mem hm
      have hok := play_from_moves_ok hmem
      simp only [hm, hok, if_true]
      refine ⟨_, _, rfl, check_game_over_current_player _, Or.inl ⟨0, t, pos, Nat.zero_le _,
        rfl, rfl, rfl, by simp, hmem, ?_⟩⟩
      intro x hx
      exact py_max_move_max hm x hx
    | none =>
      have hmoves := py_max_move_eq_none hm
      simp only [hm]
      cases hl : s.boneyard.getLast? with
      | some dt =>
        have hbne : s.boneyard ≠ [] := by
          intro hnil
          rw [hnil] at hl
          cases hl
        have hlen0 : s.boneyard.length ≠ 0 := fun h0 =>
          hbne (List.eq_nil_of_length_eq_zero h0)
        have hdraw1 : ai_draw_one s = { s with boneyard := s.boneyard.dropLast, ai_hand := s.ai_hand ++ [dt] } := by
          unfold ai_draw_one
          rw [hl]
        have hlen : (ai_draw_one s).boneyard.length < fuel := by
          rw [hdraw1]
          simp only [List.length_dropLast]
          omega
        obtain ⟨r, s', hloop, hcur, hcase⟩ := ih (ai_draw_one s) (drawn ++ [dt]) hlen
        rw [hdraw1] at hloop
        refine ⟨r, s', hloop, hcur, ?_⟩
        rcases hcase with ⟨k, t, pos, hk, hp, htl, hps, hdc, hin, hmax⟩ | ⟨hp, hdc, hby, hpm⟩
        · refine Or.inl ⟨k + 1, t, pos, ?_, hp, htl, hps, ?_, ?_, ?_⟩
          · rw [hdraw1] at hk
            simp only [List.length_dropLast] at hk
            omega
          · rw [hdc]
            congr 1
            simp only [List.length_append, List.length_singleton]
            omega
          · show (t, pos) ∈ playable_moves (ai_draw_k (k + 1) s).board
              (ai_draw_k (k + 1) s).ai_hand
            exact hin
          · intro x hx
            exact hmax x hx
        · refine Or.inr ⟨hp, ?_, hby, hpm⟩
          rw [hdc]
          congr 1
          rw [hdraw1]
          simp only [List.length_append, List.length_singleton, List.length_dropLast]
          omega
      | none =>
        have hby : s.boneyard = [] := by
          cases hbo : s.boneyard with
          | nil => rfl
          | cons x xs => rw [hbo] at hl; simp at hl
        simp only [hl]
        refine ⟨_, _, rfl, rfl, Or.inr ⟨rfl, ?_, hby, hmoves⟩⟩
        rw [hby]
        simp

/-- C5: when it is the AI's turn and the game is not over, the ai_play
loop returns within boneyard+1 iterations (ai_play calls it with exactly
that bound and it succeeds), ends with the player to move, and either
plays a pair of maximal pip sum among the pairs playable from the AI hand
after its k reported draws, or passes with the boneyard exhausted, no
playable pair, and the full draw count reported. -/
theorem C5_ai_play_bounded_loop_and_max_choice (s : GameState)
    (hc : s.current_player = Player.ai) (hg : s.game_over = false) :
    ∃ (r : AiResult) (s' : GameState),
      ai_play_loop (s.boneyard.length + 1) s [] = some (r, s') ∧
      ai_play s = some (r, s') ∧
      s'.current_player = Player.player ∧
      ((∃ k t pos, k ≤ s.boneyard.length ∧
          r.played = true ∧
          r.tile = some (Tile.to_dict t) ∧
          r.position = some pos ∧
          r.drew_count = some k ∧
          (t, pos) ∈ playable_moves (ai_draw_k k s).board (ai_draw_k k s).ai_hand ∧
          (∀ m ∈ playable_moves (ai_draw_k k s).board (ai_draw_k k s).ai_hand,
            tile_value m.1 ≤ tile_value t)) ∨
        (r.played = false ∧
          r.drew_count = some s.boneyard.length ∧
          s'.boneyard = [] ∧
          playable_moves s'.board s'.ai_hand = [])) := by
  obtain ⟨r, s', hloop, hcur, hcase⟩ :=
    ai_play_loop_spec (s.boneyard.length + 1) s [] (by omega)
  have hai : ai_play s = some (r, s') := by
    unfold ai_play
    have hcond : (s.current_player != Player.ai || s.game_over) = false := by
      simp [hc, hg]
    simp only [hcond, Bool.false_eq_true, if_false]
    exact hloop
  refine ⟨r, s', hloop, hai, hcur, ?_⟩
  simpa using hcase

/-- C5 witness: the blocked fixture, where the AI must pass at once. -/
theorem C5_ai_play_bounded_loop_and_max_choice_witness :
    (ai_play blocked_ai_turn).isSome = true := by
  obtain ⟨r, s', -, h2, -⟩ :=
    C5_ai_play_bounded_loop_and_max_choice blocked_ai_turn rfl rfl
  rw [h2]
  rfl

/-! ### C1: conservation of the 28 tiles across all reachable states -/

/-- The unordered value pair of a tile (orientation-independent view). -/
def norm_pair (t : Tile) : Nat × Nat := (min t.left t.right, max t.left t.right)

/-- The multiset of unordered value pairs of a tile list. -/
def norm_tiles (l : List Tile) : Multiset (Nat × Nat) :=
  ((l.map norm_pair : List (Nat × Nat)) : Multiset (Nat × Nat))

/-- The multiset of unordered value pairs across all four collections. -/
def hands_ms (s : GameState) : Multiset (Nat × Nat) :=
  norm_tiles s.player_hand + norm_tiles s.ai_hand +
    norm_tiles s.boneyard + norm_tiles s.board

/-- The conservation invariant: the four collections together hold
exactly the double-six set, counted as unordered pairs. -/
def tiles_invariant (s : GameState) : Prop :=
  hands_ms s = norm_tiles create_domino_set

/-- Symmetric Tile equality is equality of unordered pairs. -/
lemma tile_eq_iff_norm {a b : Tile} : tile_eq a b = true ↔ norm_pair a = norm_pair b := by
  simp only [tile_eq, norm_pair, Bool.or_eq_true, Bool.and_eq_true, beq_iff_eq,
    Prod.mk.injEq]
  omega

/-- Flipping a tile does not change its unordered pair. -/
lemma norm_pair_flip (t : Tile) : norm_pair ⟨t.right, t.left⟩ = norm_pair t := by
  simp [norm_pair, Nat.min_comm, Nat.max_comm]

lemma norm_tiles_nil : norm_tiles [] = 0 := rfl

lemma norm_tiles_cons (x : Tile) (l : List Tile) :
    norm_tiles (x :: l) = norm_pair x ::ₘ norm_tiles l := rfl

lemma norm_tiles_append (l1 l2 : List Tile) :
    norm_tiles (l1 ++ l2) = norm_tiles l1 + norm_tiles l2 := by
  simp [norm_tiles]

lemma norm_tiles_singleton (x : Tile) : norm_tiles [x] = {norm_pair x} := rfl

/-- Removing the first ==-equal tile removes exactly one copy of its
unordered pair. -/
lemma remove_eq_norm {hand : List Tile} {t : Tile} (h : mem_eq hand t = true) :
    norm_pair t ::ₘ norm_tiles (remove_eq hand t) = norm_tiles hand := by
  induction hand with
  | nil => simp [mem_eq] at h
  | cons x xs ih =>
    by_cases hx : tile_eq x t
    · have hrw : remove_eq (x :: xs) t = xs := by
        simp [remove_eq, List.eraseP_cons, hx]
      rw [hrw, norm_tiles_cons, tile_eq_iff_norm.mp hx]
    · have hmem : mem_eq xs t = true := by
        simp only [mem_eq, List.any_cons, hx, Bool.false_or] at h
        exact h
      have hrw : remove_eq (x :: xs) t = x :: remove_eq xs t := by
        simp [remove_eq, List.eraseP_cons, hx]
      rw [hrw, norm_tiles_cons, norm_tiles_cons, ← ih hmem]
      exact Multiset.cons_swap _ _ _

/-- Popping the last boneyard tile splits off one unordered pair. -/
lemma norm_tiles_pop {l : List Tile} {x : Tile} (h : l.getLast? = some x) :
    norm_tiles l = norm_tiles l.dropLast + {norm_pair x} := by
  conv_lhs => rw [← List.dropLast_append_getLast? x h]
  rw [norm_tiles_append, norm_tiles_singleton]

/-- A successful play_tile conserves the unordered pairs of hand+board. -/
lemma play_tile_norm {tile : Tile} {pos : String} {hand board : List Tile}
    (h : (play_tile tile pos hand board).ok = true) :
    norm_tiles (play_tile tile pos hand board).hand +
      norm_tiles (play_tile tile pos hand board).board =
    norm_tiles hand + norm_tiles board := by
  by_cases hmem : mem_eq hand tile
  · have hrem := remove_eq_norm hmem
    cases board with
    | nil =>
      unfold play_tile
      simp only [hmem, Bool.not_true, Bool.false_eq_true, if_false]
      rw [norm_tiles_singleton, norm_tiles_nil, add_zero, ← hrem, ← Multiset.singleton_add]
      abel
    | cons u rest =>
      unfold play_tile at h ⊢
      simp only [hmem, Bool.not_true, Bool.false_eq_true, if_false] at h ⊢
      split_ifs at h ⊢ <;>
        simp only [norm_tiles_cons, norm_tiles_append, norm_tiles_singleton, norm_pair_flip,
          ← hrem, ← Multiset.singleton_add] <;>
        abel
  · exfalso
    have hm : mem_eq hand tile = false := by simpa using hmem
    unfold play_tile at h
    rw [hm] at h
    simp at h

lemma hands_ms_check_game_over (s : GameState) :
    hands_ms (check_game_over s) = hands_ms s := by
  unfold hands_ms
  rw [check_game_over_player_hand, check_game_over_ai_hand, check_game_over_boneyard,
    check_game_over_board]

/-- A normal (non-raising) play_player_tile call conserves the tiles. -/
lemma play_player_tile_ok_ms {s : GameState} {d : TileDict} {pos : String}
    {r : PlayerResult} {s' : GameState}
    (h : play_player_tile s d pos = Except.ok (r, s')) : hands_ms s' = hands_ms s := by
  unfold play_player_tile at h
  by_cases ht : (s.current_player != Player.player || s.game_over) = true
  · rw [if_pos ht] at h; cases h; rfl
  · rw [if_neg ht] at h
    cases hf : find_exact s.player_hand d with
    | none => rw [hf] at h; dsimp only at h; cases h; rfl
    | some tile =>
      rw [hf] at h
      dsimp only at h
      cases hpa : playable_at (can_play_tile s.board tile) pos with
      | none => rw [hpa] at h; dsimp only at h; cases h
      | some b =>
        rw [hpa] at h
        dsimp only at h
        by_cases hbb : b
        · subst hbb
          simp only [Bool.not_true, Bool.false_eq_true, if_false] at h
          by_cases hok : (play_tile tile pos s.player_hand s.board).ok
          · simp only [hok, if_true] at h
            cases h
            rw [hands_ms_check_game_over]
            unfold hands_ms
            dsimp only
            have key := play_tile_norm hok
            calc norm_tiles (play_tile tile pos s.player_hand s.board).hand +
                  norm_tiles s.ai_hand + norm_tiles s.boneyard +
                  norm_tiles (play_tile tile pos s.player_hand s.board).board
                = (norm_tiles (play_tile tile pos s.player_hand s.board).hand +
                    norm_tiles (play_tile tile pos s.player_hand s.board).board) +
                  norm_tiles s.ai_hand + norm_tiles s.boneyard := by abel
              _ = (norm_tiles s.player_hand + norm_tiles s.board) +
                  norm_tiles s.ai_hand + norm_tiles s.boneyard := by rw [key]
              _ = norm_tiles s.player_hand + norm_tiles s.ai_hand +
                  norm_tiles s.boneyard + norm_tiles s.board := by abel
          · simp only [hok, Bool.false_eq_true, if_false] at h
            cases h; rfl
        · simp only [Bool.not_eq_true] at hbb
          subst hbb
          simp only [Bool.not_false, if_true] at h
          cases h; rfl

/-- The KeyError path of play_player_tile leaves the state unchanged. -/
lemma play_player_tile_error_ms {s : GameState} {d : TileDict} {pos : String}
    {s' : GameState}
    (h : play_player_tile s d pos = Except.error s') : s' = s := by
  unfold play_player_tile at h
  by_cases ht : (s.current_player != Player.player || s.game_over) = true
  · rw [if_pos ht] at h; cases h
  · rw [if_neg ht] at h
    cases hf : find_exact s.player_hand d with
    | none => rw [hf] at h; dsimp only at h; cases h
    | some tile =>
      rw [hf] at h
      dsimp only at h
      cases hpa : playable_at (can_play_tile s.board tile) pos with
      | none => rw [hpa] at h; dsimp only at h; cases h; rfl
      | some b =>
        rw [hpa] at h
        dsimp only at h
        by_cases hbb : b
        · subst hbb
          simp only [Bool.not_true, Bool.false_eq_true, if_false] at h
          by_cases hok : (play_tile tile pos s.player_hand s.board).ok
          · simp only [hok, if_true] at h; cases h
          · simp only [hok, Bool.false_eq_true, if_false] at h; cases h
        · simp only [Bool.not_eq_true] at hbb
          subst hbb
          simp only [Bool.not_false, if_true] at h
          cases h

/-- Each iteration of the AI loop conserves the tiles. -/
lemma ai_play_loop_ms :
    ∀ (fuel : Nat) (s : GameState) (drawn : List Tile) (r : AiResult) (s' : GameState),
    ai_play_loop fuel s drawn = some (r, s') → hands_ms s' = hands_ms s := by
  intro fuel
  induction fuel with
  | zero => intro s drawn r s' h; cases h
  | succ fuel ih =>
    intro s drawn r s' h
    unfold ai_play_loop at h
    dsimp only at h
    cases hm : py_max_move (playable_moves s.board s.ai_hand) with
    | some m =>
      obtain ⟨t, pos⟩ := m
      rw [hm] at h
      dsimp only at h
      by_cases hok : (play_tile t pos s.ai_hand s.board).ok
      · simp only [hok, if_true] at h
        cases h
        rw [hands_ms_check_game_over]
        unfold hands_ms
        dsimp only
        have key := play_tile_norm hok
        calc norm_tiles s.player_hand +
              norm_tiles (play_tile t pos s.ai_hand s.board).hand +
              norm_tiles s.boneyard +
              norm_tiles (play_tile t pos s.ai_hand s.board).board
            = (norm_tiles (play_tile t pos s.ai_hand s.board).hand +
                norm_tiles (play_tile t pos s.ai_hand s.board).board) +
              norm_tiles s.player_hand + norm_tiles s.boneyard := by abel
          _ = (norm_tiles s.ai_hand + norm_tiles s.board) +
              norm_tiles s.player_hand + norm_tiles s.boneyard := by rw [key]
          _ = norm_tiles s.player_hand + norm_tiles s.ai_hand +
              norm_tiles s.boneyard + norm_tiles s.board := by abel
      · simp only [hok, Bool.false_eq_true, if_false] at h
        cases hl : s.boneyard.getLast? with
        | some dt =>
          rw [hl] at h
          have h2 := ih _ _ _ _ h
          rw [h2]
          unfold hands_ms
          dsimp only
          rw [norm_tiles_append, norm_tiles_singleton, norm_tiles_pop hl]
          abel
        | none =>
          rw [hl] at h
          dsimp only at h
          cases h; rfl
    | none =>
      rw [hm] at h
      dsimp only at h
      cases hl : s.boneyard.getLast? with
      | some dt =>
        rw [hl] at h
        have h2 := ih _ _ _ _ h
        rw [h2]
        unfold hands_ms
        dsimp only
        rw [norm_tiles_append, norm_tiles_singleton, norm_tiles_pop hl]
        abel
      | none =>
        rw [hl] at h
        dsimp only at h
        cases h; rfl

/-- ai_play conserves the tiles. -/
lemma ai_play_ms {s : GameState} {r : AiResult} {s' : GameState}
    (h : ai_play s = some (r, s')) : hands_ms s' = hands_ms s := by
  unfold ai_play at h
  by_cases ht : (s.current_player != Player.ai || s.game_over) = true
  · rw [if_pos ht] at h; cases h; rfl
  · rw [if_neg ht] at h
    exact ai_play_loop_ms _ _ _ _ _ h

/-- Each iteration of the player forced-draw loop conserves the tiles. -/
lemma player_draw_loop_ms :
    ∀ (fuel : Nat) (s : GameState) (drawn : List Tile) (r : DrawResult) (s' : GameState),
    player_draw_loop fuel s drawn = some (r, s') → hands_ms s' = hands_ms s := by
  intro fuel
  induction fuel with
  | zero => intro s drawn r s' h; cases h
  | succ fuel ih =>
    intro s drawn r s' h
    unfold player_draw_loop at h
    by_cases hcp : any_can_play s.board s.player_hand
    · simp only [hcp, if_true] at h
      cases h; rfl
    · simp only [hcp, Bool.false_eq_true, if_false] at h
      cases hl : s.boneyard.getLast? with
      | some dt =>
        rw [hl] at h
        have h2 := ih _ _ _ _ h
        rw [h2]
        unfold hands_ms
        dsimp only
        rw [norm_tiles_append, norm_tiles_singleton, norm_tiles_pop hl]
        abel
      | none =>
        rw [hl] at h
        dsimp only at h
        cases h; rfl

/-- player_draw_until_playable conserves the tiles. -/
lemma player_draw_until_playable_ms {s : GameState} {r : DrawResult} {s' : GameState}
    (h : player_draw_until_playable s = some (r, s')) : hands_ms s' = hands_ms s := by
  unfold player_draw_until_playable at h
  by_cases ht : (s.current_player != Player.player || s.game_over) = true
  · rw [if_pos ht] at h; cases h; rfl
  · rw [if_neg ht] at h
    by_cases hb : s.boneyard.isEmpty
    · simp only [hb, if_true] at h; cases h; rfl
    · simp only [hb, Bool.false_eq_true, if_false] at h
      exact player_draw_loop_ms _ _ _ _ _ h

/-- The AI opening move conserves the tiles. -/
lemma ai_play_opening_double_ms {s : GameState} {a : Tile}
    (hmem : mem_eq s.ai_hand a = true) :
    hands_ms (ai_play_opening_double s a) = hands_ms s := by
  unfold ai_play_opening_double hands_ms
  dsimp only
  rw [norm_tiles_append, norm_tiles_singleton, ← remove_eq_norm hmem,
    ← Multiset.singleton_add]
  abel

/-- The AI opening move (no-doubles variant) conserves the tiles. -/
lemma ai_play_opening_tile_ms {s : GameState} {a : Tile}
    (hmem : mem_eq s.ai_hand a = true) :
    hands_ms (ai_play_opening_tile s a) = hands_ms s := by
  unfold ai_play_opening_tile hands_ms
  dsimp only
  rw [norm_tiles_append, norm_tiles_singleton, ← remove_eq_norm hmem,
    ← Multiset.singleton_add]
  abel

/-- Starting-player determination conserves the tiles. -/
lemma determine_starting_player_ms {s s' : GameState}
    (h : determine_starting_player s = some s') : hands_ms s' = hands_ms s := by
  unfold determine_starting_player at h
  dsimp only at h
  cases hA : py_max_tile (fun t => t.left) (List.filter Tile.is_double s.ai_hand) with
  | some a =>
    have hamem : mem_eq s.ai_hand a = true :=
      mem_eq_of_mem (List.mem_of_mem_filter (py_max_tile_mem hA))
    cases hP : py_max_tile (fun t => t.left) (List.filter Tile.is_double s.player_hand) with
    | some p =>
      rw [hA, hP] at h
      dsimp only at h
      split_ifs at h
      · cases h
        exact ai_play_opening_double_ms hamem
      · cases h; rfl
    | none =>
      rw [hA, hP] at h
      dsimp only at h
      cases h
      exact ai_play_opening_double_ms hamem
  | none =>
    cases hP : py_max_tile (fun t => t.left) (List.filter Tile.is_double s.player_hand) with
    | some p =>
      rw [hA, hP] at h
      dsimp only at h
      cases h; rfl
    | none =>
      rw [hA, hP] at h
      dsimp only at h
      cases hph : get_highest_tile s.player_hand with
      | none =>
        rw [hph] at h
        cases hah : get_highest_tile s.ai_hand with
        | none => rw [hah] at h; dsimp only at h; cases h
        | some ah => rw [hah] at h; dsimp only at h; cases h
      | some ph =>
        rw [hph] at h
        cases hah : get_highest_tile s.ai_hand with
        | none => rw [hah] at h; dsimp only at h; cases h
        | some ah =>
          rw [hah] at h
          dsimp only at h
          have haimem : mem_eq s.ai_hand ah = true :=
            mem_eq_of_mem (@py_max_tile_mem tile_value _ _ hah)
          split_ifs at h
          · cases h
            exact ai_play_opening_tile_ms haimem
          · cases h; rfl

/-- A freshly constructed game from any shuffle of the full set satisfies
the conservation invariant. -/
lemma new_game_invariant {shuffled : List Tile} {s : GameState}
    (hperm : shuffled.Perm create_domino_set) (h : new_game shuffled = some s) :
    tiles_invariant s := by
  unfold new_game deal_tiles at h
  have hms := determine_starting_player_ms h
  unfold tiles_invariant
  rw [hms]
  unfold hands_ms
  dsimp only
  rw [norm_tiles_nil, add_zero]
  have hdd : (shuffled.drop 7).drop 7 = shuffled.drop 14 := by
    rw [List.drop_drop]
  have hsplit : shuffled.take 7 ++ ((shuffled.drop 7).take 7 ++ shuffled.drop 14) =
      shuffled := by
    rw [← hdd, List.take_append_drop, List.take_append_drop]
  have hset : norm_tiles shuffled = norm_tiles create_domino_set := by
    unfold norm_tiles
    exact Multiset.coe_eq_coe.mpr (hperm.map norm_pair)
  calc norm_tiles (shuffled.take 7) + norm_tiles ((shuffled.drop 7).take 7) +
        norm_tiles (shuffled.drop 14)
      = norm_tiles (shuffled.take 7 ++ ((shuffled.drop 7).take 7 ++ shuffled.drop 14)) := by
        rw [norm_tiles_append, norm_tiles_append]
        abel
    _ = norm_tiles shuffled := by rw [hsplit]
    _ = norm_tiles create_domino_set := hset

/-- Every reachable state satisfies the conservation invariant. -/
lemma reachable_invariant {s : GameState} (h : Reachable s) : tiles_invariant s := by
  induction h with
  | init shuffled s hperm hnew => exact new_game_invariant hperm hnew
  | play s d pos r s' hr hstep ih =>
    unfold tiles_invariant at ih ⊢
    rw [play_player_tile_ok_ms hstep]
    exact ih
  | playExn s d pos s' hr hstep ih =>
    rw [play_player_tile_error_ms hstep]
    exact ih
  | aiStep s r s' hr hstep ih =>
    unfold tiles_invariant at ih ⊢
    rw [ai_play_ms hstep]
    exact ih
  | draw s r s' hr hstep ih =>
    unfold tiles_invariant at ih ⊢
    rw [player_draw_until_playable_ms hstep]
    exact ih

/-- C1: in every reachable state the four collections hold exactly the 28
tiles of the double-six set: their sizes sum to 28 and no unordered value
pair occurs twice across (or within) them. -/
theorem C1_four_collections_partition_28_tiles (s : GameState) (h : Reachable s) :
    s.player_hand.length + s.ai_hand.length + s.boneyard.length + s.board.length = 28 ∧
    ((s.player_hand ++ s.ai_hand ++ s.boneyard ++ s.board).map norm_pair).Nodup := by
  have hinv : hands_ms s = norm_tiles create_domino_set := reachable_invariant h
  have hcomb : hands_ms s = norm_tiles
      (s.player_hand ++ s.ai_hand ++ s.boneyard ++ s.board) := by
    unfold hands_ms
    rw [norm_tiles_append, norm_tiles_append, norm_tiles_append]
  rw [hcomb] at hinv
  have hperm : ((s.player_hand ++ s.ai_hand ++ s.boneyard ++ s.board).map norm_pair).Perm
      (create_domino_set.map norm_pair) := by
    rw [← Multiset.coe_eq_coe]
    exact hinv
  constructor
  · have hlen := hperm.length_eq
    simp only [List.length_map, List.length_append] at hlen
    have h28 : create_domino_set.length = 28 := by decide
    omega
  · have hnodup : (create_domino_set.map norm_pair).Nodup := by decide
    exact hperm.nodup_iff.mpr hnodup

/-- C1 witness: the invariant at the concrete freshly dealt game9. -/
theorem C1_four_collections_partition_28_tiles_witness :
    game9.player_hand.length + game9.ai_hand.length + game9.boneyard.length +
      game9.board.length = 28 ∧
    ((game9.player_hand ++ game9.ai_hand ++ game9.boneyard ++ game9.board).map
      norm_pair).Nodup :=
  C1_four_collections_partition_28_tiles game9
    (Reachable.init shuffle9 game9 (by decide) (by rfl))

end Dominoes
